import Mathlib

/-!
Verification of the SchoolAI audio-data pipeline.

This file gives a shallow embedding of the repository's audio pipeline:
  - the base64 decoder, WAV container writer and PCM decoder of
    src/utils/audio.ts (shipped as src/unnamed/part_003);
  - the playback controller of src/components/Summarizer.tsx, as an
    explicit state machine whose events are the handler invocations of
    the single-threaded UI event loop;
  - the speech-generation handler of src/App.tsx.

Byte sequences are modelled as `List Nat` with entries below 256; PCM
samples are modelled as rationals (every value `s / 32768` with `s` a
16-bit integer is exactly representable in binary floating point, so the
rational model is exact for the quantities the source computes).
-/

namespace SchoolAI

/-! ## WAV container writer (createWavBlob in src/unnamed/part_003)

The source writes fields into a DataView at offsets 0,4,8,12,16,20,22,24,
28,32,34,36,40 and then the payload from offset 44; the writes tile the
buffer exactly, so the embedding concatenates the field encodings in
write order. -/

/-- Little-endian encoding of a value as two bytes (DataView.setUint16
with littleEndian = true truncates to 16 bits). -/
def u16le (v : Nat) : List Nat := [v % 256, v / 256 % 256]

/-- Little-endian encoding of a value as four bytes (DataView.setUint32
with littleEndian = true truncates to 32 bits). -/
def u32le (v : Nat) : List Nat :=
  [v % 256, v / 256 % 256, v / 65536 % 256, v / 16777216 % 256]

/-- The helper writeString: each character of the string is written as
its char code (one byte, all header tags are ASCII). -/
def asciiBytes (s : String) : List Nat := s.toList.map Char.toNat

/-- createWavBlob from src/unnamed/part_003: builds the 44-byte RIFF/WAVE
header for mono 16-bit PCM at 24000 Hz and appends the payload. -/
def createWavBlob (pcmData : List Nat) : List Nat :=
  let sampleRate := 24000
  let numChannels := 1
  let bitsPerSample := 16
  let dataSize := pcmData.length
  let blockAlign := numChannels * bitsPerSample / 8
  let byteRate := sampleRate * blockAlign
  asciiBytes "RIFF" ++ u32le (36 + dataSize) ++ asciiBytes "WAVE" ++
    asciiBytes "fmt " ++ u32le 16 ++ u16le 1 ++ u16le numChannels ++
    u32le sampleRate ++ u32le byteRate ++ u16le blockAlign ++
    u16le bitsPerSample ++ asciiBytes "data" ++ u32le dataSize ++ pcmData

/-- Read four bytes at an offset as a little-endian unsigned 32-bit value. -/
def readU32le (l : List Nat) (off : Nat) : Nat :=
  match l.drop off with
  | b0 :: b1 :: b2 :: b3 :: _ => b0 + 256 * b1 + 65536 * b2 + 16777216 * b3
  | _ => 0

/-- Read two bytes at an offset as a little-endian unsigned 16-bit value. -/
def readU16le (l : List Nat) (off : Nat) : Nat :=
  match l.drop off with
  | b0 :: b1 :: _ => b0 + 256 * b1
  | _ => 0

/-- The WAV output spelled out byte by byte. -/
lemma createWavBlob_eq (pcm : List Nat) :
    createWavBlob pcm =
      82 :: 73 :: 70 :: 70 ::
      ((36 + pcm.length) % 256) :: ((36 + pcm.length) / 256 % 256) ::
      ((36 + pcm.length) / 65536 % 256) :: ((36 + pcm.length) / 16777216 % 256) ::
      87 :: 65 :: 86 :: 69 ::
      102 :: 109 :: 116 :: 32 ::
      16 :: 0 :: 0 :: 0 ::
      1 :: 0 ::
      1 :: 0 ::
      192 :: 93 :: 0 :: 0 ::
      128 :: 187 :: 0 :: 0 ::
      2 :: 0 ::
      16 :: 0 ::
      100 :: 97 :: 116 :: 97 ::
      (pcm.length % 256) :: (pcm.length / 256 % 256) ::
      (pcm.length / 65536 % 256) :: (pcm.length / 16777216 % 256) ::
      pcm := rfl

lemma u32le_readback (v : Nat) :
    v % 256 + 256 * (v / 256 % 256) + 65536 * (v / 65536 % 256) +
      16777216 * (v / 16777216 % 256) = v % 4294967296 := by
  omega

/-- C1: for every byte sequence pcm of length N, createWavBlob pcm has
exactly 44 + N bytes; bytes 0-3 are ASCII RIFF; bytes 4-7 are the
little-endian unsigned 32-bit encoding of 36 + N; bytes 8-11 are WAVE;
bytes 12-15 are fmt-space; bytes 16-19 are 16; bytes 20-21 are 1 (PCM);
bytes 22-23 are 1 (mono); bytes 24-27 are 24000; bytes 28-31 are 48000;
bytes 32-33 are 2; bytes 34-35 are 16; bytes 36-39 are data; bytes 40-43
are the little-endian unsigned 32-bit encoding of N; bytes 44 onward are
pcm verbatim. Determinism is inherent: the embedding is a function of
pcm alone. -/
theorem createWavBlob_header_spec (pcm : List Nat) :
    (createWavBlob pcm).length = 44 + pcm.length ∧
    (createWavBlob pcm).take 4 = [82, 73, 70, 70] ∧
    readU32le (createWavBlob pcm) 4 = (36 + pcm.length) % 4294967296 ∧
    ((createWavBlob pcm).drop 8).take 4 = [87, 65, 86, 69] ∧
    ((createWavBlob pcm).drop 12).take 4 = [102, 109, 116, 32] ∧
    readU32le (createWavBlob pcm) 16 = 16 ∧
    readU16le (createWavBlob pcm) 20 = 1 ∧
    readU16le (createWavBlob pcm) 22 = 1 ∧
    readU32le (createWavBlob pcm) 24 = 24000 ∧
    readU32le (createWavBlob pcm) 28 = 48000 ∧
    readU16le (createWavBlob pcm) 32 = 2 ∧
    readU16le (createWavBlob pcm) 34 = 16 ∧
    ((createWavBlob pcm).drop 36).take 4 = [100, 97, 116, 97] ∧
    readU32le (createWavBlob pcm) 40 = pcm.length % 4294967296 ∧
    (createWavBlob pcm).drop 44 = pcm := by
  rw [createWavBlob_eq]
  refine ⟨?_, rfl, ?_, rfl, rfl, rfl, rfl, rfl, rfl, rfl, rfl, rfl, rfl, ?_, rfl⟩
  · simp only [List.length_cons]
    omega
  · show (36 + pcm.length) % 256 + 256 * ((36 + pcm.length) / 256 % 256) +
        65536 * ((36 + pcm.length) / 65536 % 256) +
        16777216 * ((36 + pcm.length) / 16777216 % 256) =
        (36 + pcm.length) % 4294967296
    exact u32le_readback _
  · show pcm.length % 256 + 256 * (pcm.length / 256 % 256) +
        65536 * (pcm.length / 65536 % 256) +
        16777216 * (pcm.length / 16777216 % 256) =
        pcm.length % 4294967296
    exact u32le_readback _

/-! ## PCM decoder (decodePcmData in src/unnamed/part_003)

The source builds an Int16Array view on pcmData.buffer.  Constructing an
Int16Array on a buffer whose byte length is not a multiple of 2 throws a
RangeError; everywhere in this repository pcmData is the freshly
allocated result of decode, so its buffer length equals its length.  The
fallible computation is embedded as an Except value. -/

/-- The error decodePcmData can raise: the RangeError thrown by the
Int16Array construction when the byte length is odd. -/
inductive DecodeError
  | rangeError
  deriving DecidableEq

/-- The signed 16-bit integer held by an Int16Array element whose low
byte is lo and high byte is hi (little-endian). -/
def int16OfLE (lo hi : Nat) : Int :=
  if lo + 256 * hi < 32768 then (lo + 256 * hi : Int)
  else (lo + 256 * hi : Int) - 65536

/-- The Int16Array view of a byte sequence: consecutive byte pairs, low
byte first. -/
def toInt16s : List Nat → List Int
  | [] => []
  | [_] => []
  | lo :: hi :: rest => int16OfLE lo hi :: toInt16s rest

/-- The AudioBuffer decodePcmData fills: channel count, sample rate and
the data of channel 0 (the source's channel loop runs exactly once since
numChannels is the constant 1). -/
structure AudioBuffer where
  numberOfChannels : Nat
  sampleRate : Nat
  channelData : List ℚ
  deriving DecidableEq

/-- decodePcmData from src/unnamed/part_003: view the bytes as signed
16-bit little-endian samples (frameCount = length of the Int16Array) and
normalize each sample s to s / 32768.0. -/
def decodePcmData (pcmData : List Nat) : Except DecodeError AudioBuffer :=
  if pcmData.length % 2 ≠ 0 then .error .rangeError
  else .ok { numberOfChannels := 1,
             sampleRate := 24000,
             channelData := (toInt16s pcmData).map (fun (s : Int) => (s : ℚ) / 32768) }

lemma toInt16s_length : ∀ pcm : List Nat, (toInt16s pcm).length = pcm.length / 2
  | [] => by simp [toInt16s]
  | [_] => by simp [toInt16s]
  | _ :: _ :: rest => by
      simp only [toInt16s, List.length_cons]
      rw [toInt16s_length rest]
      omega

lemma toInt16s_getD : ∀ (pcm : List Nat) (i : Nat), 2 * i + 1 < pcm.length →
    (toInt16s pcm).getD i 0 = int16OfLE (pcm.getD (2 * i) 0) (pcm.getD (2 * i + 1) 0)
  | [], i, h => by simp at h
  | [_], i, h => by simp at h
  | lo :: hi :: rest, 0, _ => rfl
  | lo :: hi :: rest, i + 1, h => by
      have h2 : 2 * i + 1 < rest.length := by
        simp only [List.length_cons] at h
        omega
      have ih := toInt16s_getD rest i h2
      rw [show 2 * (i + 1) = 2 * i + 1 + 1 from by omega]
      simp only [toInt16s, List.getD_cons_succ]
      exact ih

lemma getD_map_norm : ∀ (l : List Int) (i : Nat),
    (l.map (fun (s : Int) => (s : ℚ) / 32768)).getD i 0 = ((l.getD i 0 : ℤ) : ℚ) / 32768
  | [], i => by simp
  | a :: l, 0 => rfl
  | a :: l, i + 1 => by
      simp only [List.map_cons, List.getD_cons_succ]
      exact getD_map_norm l i

/-- C2: for every byte sequence of even length N, decodePcmData yields an
audio buffer with 1 channel, sample rate 24000 and N / 2 frames, frame i
being the signed 16-bit little-endian integer of bytes 2i and 2i+1
divided by 32768; bytes 0x00 0x80 yield exactly -1 and bytes 0xFF 0x7F
yield exactly 32767 / 32768 (no rescaling, no clamping to a symmetric
range). -/
theorem decodePcmData_even_spec :
    (∀ pcm : List Nat, pcm.length % 2 = 0 →
      ∃ buf, decodePcmData pcm = .ok buf ∧
        buf.numberOfChannels = 1 ∧ buf.sampleRate = 24000 ∧
        buf.channelData.length = pcm.length / 2 ∧
        ∀ i, i < pcm.length / 2 →
          buf.channelData.getD i 0 =
            (int16OfLE (pcm.getD (2 * i) 0) (pcm.getD (2 * i + 1) 0) : ℚ) / 32768) ∧
    decodePcmData [0, 128] = .ok ⟨1, 24000, [-1]⟩ ∧
    decodePcmData [255, 127] = .ok ⟨1, 24000, [(32767 : ℚ) / 32768]⟩ := by
  refine ⟨?_, by norm_num [decodePcmData, toInt16s, int16OfLE],
    by norm_num [decodePcmData, toInt16s, int16OfLE]⟩
  intro pcm h
  have hok : decodePcmData pcm =
      .ok ⟨1, 24000, (toInt16s pcm).map (fun (s : Int) => (s : ℚ) / 32768)⟩ := by
    unfold decodePcmData
    rw [if_neg (by omega : ¬pcm.length % 2 ≠ 0)]
  refine ⟨_, hok, rfl, rfl, ?_, ?_⟩
  · rw [List.length_map, toInt16s_length]
  · intro i hi
    have hb : 2 * i + 1 < pcm.length := by omega
    simp only [getD_map_norm, toInt16s_getD pcm i hb]

/-- Witness for the universally quantified part of the C2 theorem at the
concrete four-byte input 0x00 0x80 0xFF 0x7F. -/
theorem decodePcmData_even_witness :
    ([0, 128, 255, 127] : List Nat).length % 2 = 0 ∧
    ∃ buf, decodePcmData [0, 128, 255, 127] = .ok buf ∧
      buf.numberOfChannels = 1 ∧ buf.sampleRate = 24000 ∧
      buf.channelData.length = ([0, 128, 255, 127] : List Nat).length / 2 ∧
      ∀ i, i < ([0, 128, 255, 127] : List Nat).length / 2 →
        buf.channelData.getD i 0 =
          (int16OfLE (([0, 128, 255, 127] : List Nat).getD (2 * i) 0)
            (([0, 128, 255, 127] : List Nat).getD (2 * i + 1) 0) : ℚ) / 32768 :=
  ⟨by decide, decodePcmData_even_spec.1 [0, 128, 255, 127] (by decide)⟩

/-- C4: for every byte sequence of odd length, decodePcmData fails with a
decode error (the incomplete final sample is rejected, not silently
truncated). -/
theorem decodePcmData_odd_err (pcm : List Nat) (h : pcm.length % 2 = 1) :
    decodePcmData pcm = .error .rangeError := by
  simp [decodePcmData, h]

/-- Witness for the C4 theorem at the concrete one-byte input. -/
theorem decodePcmData_odd_err_witness :
    decodePcmData [0] = .error .rangeError :=
  decodePcmData_odd_err [0] (by decide)

/-! ## Base64 decoder (decode in src/unnamed/part_003)

The source calls atob and copies the char codes of the returned binary
string into a Uint8Array, which is the identity on byte values, so the
embedding decodes straight to bytes.  atob implements forgiving-base64:
when the input length is a multiple of four, up to two trailing equals
signs are removed; a remaining length of 1 mod 4 or any character
outside the alphabet is an error; the final partial group of two or
three characters yields one or two bytes. -/

/-- The base64 alphabet. -/
def b64Alphabet : List Char :=
  "ABCDEFGHIJKLMNOPQRSTUVWXYZabcdefghijklmnopqrstuvwxyz0123456789+/".toList

/-- Character encoding a 6-bit value. -/
def b64Char (n : Nat) : Char := b64Alphabet.getD n 'A'

/-- Alphabet index of a character, none for a character outside the
base64 alphabet. -/
def b64Index (c : Char) : Option Nat := b64Alphabet.findIdx? (fun d => d == c)

/-- Map each character to its alphabet index, failing on the first
character outside the alphabet. -/
def b64Indices : List Char → Option (List Nat)
  | [] => some []
  | c :: cs => (b64Index c).bind (fun i => (b64Indices cs).map (fun is => i :: is))

/-- Reassemble bytes from 6-bit groups: a full group of four characters
holds three bytes; a final group of two characters holds one byte and a
final group of three holds two (trailing bits are discarded). -/
def b64Bytes : List Nat → List Nat
  | [] => []
  | [_] => []
  | [a, b] => [a * 4 + b / 16]
  | [a, b, c] => [a * 4 + b / 16, b % 16 * 16 + c / 4]
  | a :: b :: c :: d :: rest =>
      (a * 4 + b / 16) :: (b % 16 * 16 + c / 4) :: (c % 4 * 64 + d) :: b64Bytes rest

/-- Remove up to two trailing equals signs. -/
def stripPad (cs : List Char) : List Char :=
  match cs.reverse with
  | '=' :: '=' :: rest => rest.reverse
  | '=' :: rest => rest.reverse
  | _ => cs

/-- Padding removal of forgiving-base64: applies only when the length is
a multiple of four. -/
def forgivingStrip (cs : List Char) : List Char :=
  if cs.length % 4 = 0 then stripPad cs else cs

/-- Decoding of a character list by atob, after padding removal. -/
def decodeChars (cs : List Char) : Option (List Nat) :=
  if (forgivingStrip cs).length % 4 = 1 then none
  else (b64Indices (forgivingStrip cs)).map b64Bytes

/-- decode from src/unnamed/part_003: atob, then char codes as bytes. -/
def decode (s : String) : Option (List Nat) := decodeChars s.toList

/-- Reference base64 encoder, 6-bit groups of each three-byte chunk. -/
def b64EncodeChunks : List Nat → List Char
  | [] => []
  | [x] => [b64Char (x / 4), b64Char (x % 4 * 16)]
  | [x, y] => [b64Char (x / 4), b64Char (x % 4 * 16 + y / 16), b64Char (y % 16 * 4)]
  | x :: y :: z :: rest =>
      b64Char (x / 4) :: b64Char (x % 4 * 16 + y / 16) ::
        b64Char (y % 16 * 4 + z / 64) :: b64Char (z % 64) :: b64EncodeChunks rest

/-- Canonical padding for a byte count with the given residue mod 3. -/
def b64Pad : Nat → List Char
  | 1 => ['=', '=']
  | 2 => ['=']
  | _ => []

/-- Reference base64 encoder (canonical padded form, as btoa produces). -/
def base64Encode (bytes : List Nat) : String :=
  String.mk (b64EncodeChunks bytes ++ b64Pad (bytes.length % 3))

lemma b64Index_b64Char : ∀ n < 64, b64Index (b64Char n) = some n := by decide

lemma b64Char_ne_pad (n : Nat) : b64Char n ≠ '=' := by
  rcases Nat.lt_or_ge n 64 with h | h
  · exact (by decide : ∀ m < 64, b64Char m ≠ '=') n h
  · have hd : b64Char n = 'A' := by
      unfold b64Char
      apply List.getD_eq_default
      have hlen : b64Alphabet.length = 64 := by decide
      omega
    rw [hd]
    decide

lemma b64EncodeChunks_ne_pad : ∀ (bytes : List Nat) (c : Char),
    c ∈ b64EncodeChunks bytes → c ≠ '='
  | [], c, hc => by simp [b64EncodeChunks] at hc
  | [x], c, hc => by
      simp only [b64EncodeChunks, List.mem_cons, List.not_mem_nil, or_false] at hc
      rcases hc with rfl | rfl <;> exact b64Char_ne_pad _
  | [x, y], c, hc => by
      simp only [b64EncodeChunks, List.mem_cons, List.not_mem_nil, or_false] at hc
      rcases hc with rfl | rfl | rfl <;> exact b64Char_ne_pad _
  | x :: y :: z :: rest, c, hc => by
      simp only [b64EncodeChunks, List.mem_cons] at hc
      rcases hc with rfl | rfl | rfl | rfl | hc
      · exact b64Char_ne_pad _
      · exact b64Char_ne_pad _
      · exact b64Char_ne_pad _
      · exact b64Char_ne_pad _
      · exact b64EncodeChunks_ne_pad rest c hc

lemma b64EncodeChunks_len : ∀ bytes : List Nat,
    (bytes.length % 3 = 0 → (b64EncodeChunks bytes).length % 4 = 0) ∧
    (bytes.length % 3 = 1 → (b64EncodeChunks bytes).length % 4 = 2) ∧
    (bytes.length % 3 = 2 → (b64EncodeChunks bytes).length % 4 = 3)
  | [] => by simp [b64EncodeChunks]
  | [_] => by simp [b64EncodeChunks]
  | [_, _] => by simp [b64EncodeChunks]
  | x :: y :: z :: rest => by
      obtain ⟨ih0, ih1, ih2⟩ := b64EncodeChunks_len rest
      have hl : (b64EncodeChunks (x :: y :: z :: rest)).length =
          4 + (b64EncodeChunks rest).length := by
        simp only [b64EncodeChunks, List.length_cons]
        omega
      have hm : (x :: y :: z :: rest).length = 3 + rest.length := by
        simp only [List.length_cons]
        omega
      refine ⟨fun h => ?_, fun h => ?_, fun h => ?_⟩
      · have := ih0 (by omega)
        omega
      · have := ih1 (by omega)
        omega
      · have := ih2 (by omega)
        omega

lemma stripPad_no_pad (cs : List Char) (h : ∀ c ∈ cs, c ≠ '=') : stripPad cs = cs := by
  unfold stripPad
  split
  · rename_i rest heq
    exfalso
    refine h '=' ?_ rfl
    have : '=' ∈ cs.reverse := by rw [heq]; simp
    simpa using this
  · rename_i rest heq
    exfalso
    refine h '=' ?_ rfl
    have : '=' ∈ cs.reverse := by rw [heq]; simp
    simpa using this
  · rfl

lemma stripPad_append_one (cs : List Char) (h : ∀ c ∈ cs, c ≠ '=') :
    stripPad (cs ++ ['=']) = cs := by
  have hrev : (cs ++ ['=']).reverse = '=' :: cs.reverse := by simp
  unfold stripPad
  rw [hrev]
  split
  · rename_i rest heq
    exfalso
    refine h '=' ?_ rfl
    have h2 : cs.reverse = '=' :: rest := by
      exact (List.cons.injEq _ _ _ _).mp heq |>.2
    have : '=' ∈ cs.reverse := by rw [h2]; simp
    simpa using this
  · rename_i rest hno heq
    have h2 : rest = cs.reverse := by
      exact ((List.cons.injEq _ _ _ _).mp heq |>.2).symm
    rw [h2, List.reverse_reverse]
  · rename_i hne1 hne2
    exfalso
    exact hne2 cs.reverse rfl

lemma stripPad_append_two (cs : List Char) :
    stripPad (cs ++ ['=', '=']) = cs := by
  have hrev : (cs ++ ['=', '=']).reverse = '=' :: '=' :: cs.reverse := by simp
  unfold stripPad
  rw [hrev]
  split
  · rename_i rest heq
    have h2 : rest = cs.reverse := by
      have h3 := (List.cons.injEq _ _ _ _).mp heq |>.2
      exact ((List.cons.injEq _ _ _ _).mp h3 |>.2).symm
    rw [h2, List.reverse_reverse]
  · rename_i rest hno heq
    exfalso
    have h2 : rest = '=' :: cs.reverse := by
      exact ((List.cons.injEq _ _ _ _).mp heq |>.2).symm
    exact hno cs.reverse h2
  · rename_i hne1 hne2
    exfalso
    exact hne1 cs.reverse rfl

lemma b64_chunks_roundtrip : ∀ bytes : List Nat, (∀ b ∈ bytes, b < 256) →
    ∃ idxs, b64Indices (b64EncodeChunks bytes) = some idxs ∧ b64Bytes idxs = bytes
  | [], _ => ⟨[], rfl, rfl⟩
  | [x], h => by
      have hx : x < 256 := h x (by simp)
      refine ⟨[x / 4, x % 4 * 16], ?_, ?_⟩
      · have e1 := b64Index_b64Char (x / 4) (by omega)
        have e2 := b64Index_b64Char (x % 4 * 16) (by omega)
        simp [b64EncodeChunks, b64Indices, e1, e2]
      · show [x / 4 * 4 + x % 4 * 16 / 16] = [x]
        congr 1
        omega
  | [x, y], h => by
      have hx : x < 256 := h x (by simp)
      have hy : y < 256 := h y (by simp)
      refine ⟨[x / 4, x % 4 * 16 + y / 16, y % 16 * 4], ?_, ?_⟩
      · have e1 := b64Index_b64Char (x / 4) (by omega)
        have e2 := b64Index_b64Char (x % 4 * 16 + y / 16) (by omega)
        have e3 := b64Index_b64Char (y % 16 * 4) (by omega)
        simp [b64EncodeChunks, b64Indices, e1, e2, e3]
      · show [x / 4 * 4 + (x % 4 * 16 + y / 16) / 16,
          (x % 4 * 16 + y / 16) % 16 * 16 + y % 16 * 4 / 4] = [x, y]
        congr 1
        · omega
        · congr 1
          omega
  | x :: y :: z :: rest, h => by
      have hx : x < 256 := h x (by simp)
      have hy : y < 256 := h y (by simp)
      have hz : z < 256 := h z (by simp)
      have hrest : ∀ b ∈ rest, b < 256 := fun b hb => h b (by simp [hb])
      obtain ⟨idxs, hi, hb⟩ := b64_chunks_roundtrip rest hrest
      refine ⟨x / 4 :: (x % 4 * 16 + y / 16) :: (y % 16 * 4 + z / 64) :: z % 64 :: idxs,
        ?_, ?_⟩
      · have e1 := b64Index_b64Char (x / 4) (by omega)
        have e2 := b64Index_b64Char (x % 4 * 16 + y / 16) (by omega)
        have e3 := b64Index_b64Char (y % 16 * 4 + z / 64) (by omega)
        have e4 := b64Index_b64Char (z % 64) (by omega)
        simp [b64EncodeChunks, b64Indices, e1, e2, e3, e4, hi]
      · show (x / 4 * 4 + (x % 4 * 16 + y / 16) / 16) ::
          ((x % 4 * 16 + y / 16) % 16 * 16 + (y % 16 * 4 + z / 64) / 4) ::
          ((y % 16 * 4 + z / 64) % 4 * 64 + z % 64) :: b64Bytes idxs = x :: y :: z :: rest
        rw [hb]
        congr 1
        · omega
        · congr 1
          · omega
          · congr 1
            omega

/-- C5: decoding the base64 encoding of any byte sequence returns the
original bytes: decode is a left inverse of the reference base64 encoder
on byte sequences. -/
theorem decode_base64Encode (bytes : List Nat) (h : ∀ b ∈ bytes, b < 256) :
    decode (base64Encode bytes) = some bytes := by
  obtain ⟨idxs, hidx, hbytes⟩ := b64_chunks_roundtrip bytes h
  have hne : ∀ c ∈ b64EncodeChunks bytes, c ≠ '=' := b64EncodeChunks_ne_pad bytes
  obtain ⟨l0, l1, l2⟩ := b64EncodeChunks_len bytes
  have hTo : (base64Encode bytes).toList =
      b64EncodeChunks bytes ++ b64Pad (bytes.length % 3) := rfl
  rw [decode, hTo]
  have h3 : bytes.length % 3 = 0 ∨ bytes.length % 3 = 1 ∨ bytes.length % 3 = 2 := by
    omega
  rcases h3 with h3 | h3 | h3
  · rw [h3]
    have hpad : b64Pad 0 = [] := rfl
    rw [hpad, List.append_nil]
    have hstrip : forgivingStrip (b64EncodeChunks bytes) = b64EncodeChunks bytes := by
      rw [forgivingStrip, if_pos (l0 h3), stripPad_no_pad _ hne]
    rw [decodeChars, hstrip, if_neg (by have := l0 h3; omega), hidx]
    simp [hbytes]
  · rw [h3]
    have hpad : b64Pad 1 = ['=', '='] := rfl
    rw [hpad]
    have hstrip : forgivingStrip (b64EncodeChunks bytes ++ ['=', '=']) =
        b64EncodeChunks bytes := by
      rw [forgivingStrip, if_pos (by simp only [List.length_append]; have := l1 h3; simp; omega),
        stripPad_append_two]
    rw [decodeChars, hstrip, if_neg (by have := l1 h3; omega), hidx]
    simp [hbytes]
  · rw [h3]
    have hpad : b64Pad 2 = ['='] := rfl
    rw [hpad]
    have hstrip : forgivingStrip (b64EncodeChunks bytes ++ ['=']) =
        b64EncodeChunks bytes := by
      rw [forgivingStrip, if_pos (by simp only [List.length_append]; have := l2 h3; simp; omega),
        stripPad_append_one _ hne]
    rw [decodeChars, hstrip, if_neg (by have := l2 h3; omega), hidx]
    simp [hbytes]

/-- Witness for the C5 theorem at a concrete three-byte input. -/
theorem decode_base64Encode_witness :
    decode (base64Encode [0, 1, 255]) = some [0, 1, 255] :=
  decode_base64Encode [0, 1, 255] (by decide)

/-! ## End-to-end scenario for the input "AAAB/w=="

decode yields the bytes 0x00 0x00 0x01 0xFF.  The second Int16Array
element reads bytes 2 and 3 little-endian: low byte 0x01, high byte
0xFF, giving 0xFF01 = -255 — not 0x01FF = 511 as the spec's scenario
computes (that value would be the big-endian reading). -/

/-- C3 counterexample: on the claim's own input, the second sample is
not 511 / 32768; decodePcmData is a function, and its value there has
second sample -255 / 32768. -/
theorem endToEnd_AAAB_cex :
    decode "AAAB/w==" = some [0, 0, 1, 255] ∧
    decodePcmData [0, 0, 1, 255] ≠ .ok ⟨1, 24000, [0, (511 : ℚ) / 32768]⟩ := by
  constructor
  · decide
  · norm_num [decodePcmData, toInt16s, int16OfLE]

/-- C3 (amended): decode "AAAB/w==" yields the four bytes 0x00 0x00 0x01
0xFF; createWavBlob on them yields 48 bytes whose bytes 40-43 equal 4;
decodePcmData on them yields one channel at 24000 Hz with 2 frames whose
sample values are 0 and -255 / 32768 (the int16 formed little-endian
from bytes 0x01, 0xFF is 0xFF01 = -255). -/
theorem endToEnd_AAAB :
    decode "AAAB/w==" = some [0, 0, 1, 255] ∧
    (createWavBlob [0, 0, 1, 255]).length = 48 ∧
    readU32le (createWavBlob [0, 0, 1, 255]) 40 = 4 ∧
    decodePcmData [0, 0, 1, 255] = .ok ⟨1, 24000, [0, (-255 : ℚ) / 32768]⟩ := by
  refine ⟨by decide, by decide, by decide, ?_⟩
  norm_num [decodePcmData, toInt16s, int16OfLE]

/-! ## Playback controller (src/components/Summarizer.tsx)

The component's playback behaviour is embedded as a state machine.  A
state holds the isPlaying flag, audioSourceRef (the index of the source
it points at, none when nulled) and one record per
AudioBufferSourceNode ever created (index = creation order).  Events are
the handler invocations of the single-threaded UI event loop, each run
atomically:
  - play b: playSummaryAudio with a ready buffer b.  When isPlaying it
    runs the early branch (lines 72-76): stop() on the current source,
    isPlaying := false, return — it does not start b.  Otherwise
    playBuffer runs: a new source bound to b is created and started,
    audioSourceRef := the source, isPlaying := true.
  - stop: the explicit stop paths (the toggle branch and the
    audioFile-change effect, lines 61-67): when isPlaying, stop() on
    the current source and isPlaying := false; otherwise nothing runs.
  - ended i: the onended callback of source i (lines 92-95), which the
    platform fires once per started source, after natural completion or
    after stop(): isPlaying := false and audioSourceRef := null.  It is
    a no-op when source i does not exist or its callback already fired.
  - playFail b: a play attempt from idle whose decode or setup throws
    inside playBuffer before source.start: no state field was assigned
    yet, so the state is unchanged (from a playing state the early
    toggle branch runs instead, as for play). -/

/-- One AudioBufferSourceNode: the buffer bound to it, whether stop()
has been called on it, and whether its onended callback has fired. -/
structure Session where
  buffer : Nat
  stopped : Bool
  ended : Bool
  deriving DecidableEq

/-- A source is live while it is audibly playing: started (every
created source is started immediately) and neither stopped nor
naturally finished. -/
def Session.live (s : Session) : Bool := !s.stopped && !s.ended

/-- Component playback state. -/
structure CtrlState where
  isPlaying : Bool
  current : Option Nat
  sessions : List Session
  deriving DecidableEq

/-- Initial state: not playing, null audioSourceRef, no sources. -/
def initState : CtrlState := ⟨false, none, []⟩

/-- Events of the playback state machine. -/
inductive Ev where
  | play (buffer : Nat)
  | stop
  | ended (i : Nat)
  | playFail (buffer : Nat)
  deriving DecidableEq

/-- Record that stop() was called on source i. -/
def markStopped : List Session → Nat → List Session
  | [], _ => []
  | s :: ss, 0 => { s with stopped := true } :: ss
  | s :: ss, i + 1 => s :: markStopped ss i

/-- Record that the onended callback of source i has fired. -/
def markEnded : List Session → Nat → List Session
  | [], _ => []
  | s :: ss, 0 => { s with ended := true } :: ss
  | s :: ss, i + 1 => s :: markEnded ss i

/-- The effect of audioSourceRef.current?.stop(): stops the referenced
source, nothing when the reference is null. -/
def stopCurrent (st : CtrlState) : List Session :=
  match st.current with
  | some i => markStopped st.sessions i
  | none => st.sessions

/-- Whether the onended callback of source i can still fire: the source
exists and its callback has not fired yet. -/
def endedEnabled (st : CtrlState) (i : Nat) : Bool :=
  match st.sessions.get? i with
  | some s => !s.ended
  | none => false

/-- One atomic handler invocation. -/
def step (st : CtrlState) : Ev → CtrlState
  | .play b =>
      if st.isPlaying then
        { st with sessions := stopCurrent st, isPlaying := false }
      else
        { isPlaying := true,
          current := some st.sessions.length,
          sessions := st.sessions ++ [⟨b, false, false⟩] }
  | .stop =>
      if st.isPlaying then
        { st with sessions := stopCurrent st, isPlaying := false }
      else st
  | .ended i =>
      if endedEnabled st i then
        { isPlaying := false, current := none, sessions := markEnded st.sessions i }
      else st
  | .playFail _ =>
      if st.isPlaying then
        { st with sessions := stopCurrent st, isPlaying := false }
      else st

/-- States reachable by any sequence of events. -/
inductive Reachable : CtrlState → Prop
  | init : Reachable initState
  | next (st : CtrlState) (e : Ev) (h : Reachable st) : Reachable (step st e)

/-- States reachable when every onended callback fires while its source
is still the referenced one (no stale callback is delayed past a later
play). -/
inductive ReachableSync : CtrlState → Prop
  | init : ReachableSync initState
  | next (st : CtrlState) (e : Ev) (h : ReachableSync st)
      (hcur : ∀ i, e = Ev.ended i → st.current = some i) : ReachableSync (step st e)

/-- Number of live sources. -/
def liveCount (st : CtrlState) : Nat := (st.sessions.filter Session.live).length

lemma markStopped_length : ∀ (ss : List Session) (i : Nat),
    (markStopped ss i).length = ss.length
  | [], _ => rfl
  | _ :: ss, 0 => rfl
  | _ :: ss, i + 1 => by
      simp only [markStopped, List.length_cons, markStopped_length ss i]

lemma markStopped_get?_eq : ∀ (ss : List Session) (i : Nat),
    (markStopped ss i).get? i = (ss.get? i).map (fun s => { s with stopped := true })
  | [], _ => by simp [markStopped]
  | _ :: ss, 0 => rfl
  | _ :: ss, i + 1 => by
      simp only [markStopped, List.get?_cons_succ]
      exact markStopped_get?_eq ss i

lemma markStopped_get?_ne : ∀ (ss : List Session) (i j : Nat), i ≠ j →
    (markStopped ss i).get? j = ss.get? j
  | [], _, _, _ => by simp [markStopped]
  | _ :: ss, 0, 0, h => absurd rfl h
  | _ :: ss, 0, j + 1, _ => rfl
  | _ :: ss, i + 1, 0, _ => rfl
  | _ :: ss, i + 1, j + 1, h => by
      simp only [markStopped, List.get?_cons_succ]
      exact markStopped_get?_ne ss i j (fun hc => h (by omega))

lemma markEnded_get?_eq : ∀ (ss : List Session) (i : Nat),
    (markEnded ss i).get? i = (ss.get? i).map (fun s => { s with ended := true })
  | [], _ => by simp [markEnded]
  | _ :: ss, 0 => rfl
  | _ :: ss, i + 1 => by
      simp only [markEnded, List.get?_cons_succ]
      exact markEnded_get?_eq ss i

lemma markEnded_get?_ne : ∀ (ss : List Session) (i j : Nat), i ≠ j →
    (markEnded ss i).get? j = ss.get? j
  | [], _, _, _ => by simp [markEnded]
  | _ :: ss, 0, 0, h => absurd rfl h
  | _ :: ss, 0, j + 1, _ => rfl
  | _ :: ss, i + 1, 0, _ => rfl
  | _ :: ss, i + 1, j + 1, h => by
      simp only [markEnded, List.get?_cons_succ]
      exact markEnded_get?_ne ss i j (fun hc => h (by omega))

/-- Whenever the controller is playing, the referenced source exists and
is neither stopped nor ended: only the idle branch of play sets the
flag, and it creates a fresh started source. -/
lemma reachable_current_fresh : ∀ st, Reachable st → st.isPlaying = true →
    ∃ i s, st.current = some i ∧ st.sessions.get? i = some s ∧
      s.stopped = false ∧ s.ended = false := by
  intro st h
  induction h with
  | init => intro hp; simp [initState] at hp
  | next st e hst ih =>
      cases e with
      | play b =>
          by_cases hp : st.isPlaying = true
          · intro hc
            have : (step st (.play b)).isPlaying = false := by simp [step, hp]
            rw [this] at hc
            cases hc
          · intro _
            have hstep : step st (.play b) =
                ⟨true, some st.sessions.length, st.sessions ++ [⟨b, false, false⟩]⟩ := by
              simp [step, hp]
            rw [hstep]
            exact ⟨st.sessions.length, ⟨b, false, false⟩, rfl,
              List.get?_concat_length _ _, rfl, rfl⟩
      | stop =>
          by_cases hp : st.isPlaying = true
          · intro hc
            have : (step st .stop).isPlaying = false := by simp [step, hp]
            rw [this] at hc
            cases hc
          · have hstep : step st .stop = st := by simp [step, hp]
            rw [hstep]
            exact ih
      | ended i =>
          by_cases hg : endedEnabled st i = true
          · intro hc
            have : (step st (.ended i)).isPlaying = false := by simp [step, hg]
            rw [this] at hc
            cases hc
          · have hstep : step st (.ended i) = st := by simp [step, hg]
            rw [hstep]
            exact ih
      | playFail b =>
          by_cases hp : st.isPlaying = true
          · intro hc
            have : (step st (.playFail b)).isPlaying = false := by simp [step, hp]
            rw [this] at hc
            cases hc
          · have hstep : step st (.playFail b) = st := by simp [step, hp]
            rw [hstep]
            exact ih

/-- C10: in every reachable state, when the isPlaying flag is set the
audioSourceRef is non-null: play binds and starts a source before
setting the flag, and every path that clears the reference also clears
the flag. -/
theorem isPlaying_imp_sourceRef (st : CtrlState) (h : Reachable st)
    (hp : st.isPlaying = true) : st.current.isSome = true := by
  obtain ⟨i, s, hc, -, -, -⟩ := reachable_current_fresh st h hp
  rw [hc]
  rfl

/-- Witness for the C10 theorem at the reachable state after one play. -/
theorem isPlaying_imp_sourceRef_witness :
    (step initState (.play 0)).current.isSome = true :=
  isPlaying_imp_sourceRef (step initState (.play 0))
    (Reachable.next initState (.play 0) Reachable.init) rfl

/-- C9: stop on an idle controller is a no-op — the state is unchanged
(the handler contains no failing operation: the optional chain tolerates
a null reference, and stop() on an already-stopped started source does
not throw) — and stop is idempotent from any state. -/
theorem stop_idle_noop :
    (∀ st : CtrlState, st.isPlaying = false → step st .stop = st) ∧
    (∀ st : CtrlState, step (step st .stop) .stop = step st .stop) := by
  constructor
  · intro st h
    simp [step, h]
  · intro st
    by_cases h : st.isPlaying = true
    · have h1 : (step st .stop).isPlaying = false := by simp [step, h]
      conv_lhs => rw [step]
      rw [if_neg (by rw [h1]; exact fun hc => Bool.noConfusion hc)]
    · have h0 : st.isPlaying = false := by simpa using h
      have h1 : step st .stop = st := by simp [step, h0]
      rw [h1, h1]

/-- Witness for the C9 theorem at the idle initial state. -/
theorem stop_idle_noop_witness : step initState .stop = initState :=
  stop_idle_noop.1 initState rfl

/-- C7 counterexample: play then explicit stop; the stopped source is
recorded as stopped with its callback still pending, the callback
remains enabled, and firing it changes the state (it nulls the source
reference) — the completion transition is not suppressed. -/
theorem stop_ended_cex :
    (step (step initState (.play 0)) .stop).sessions.get? 0 = some ⟨0, true, false⟩ ∧
    endedEnabled (step (step initState (.play 0)) .stop) 0 = true ∧
    step (step (step initState (.play 0)) .stop) (.ended 0) ≠
      step (step initState (.play 0)) .stop := by
  decide

/-- C7 (amended): after an explicit stop from a playing state, the
stopped source's completion callback is not suppressed — it remains
able to fire — and when it fires it finds the flag already false and
leaves the controller idle, clearing the source reference; the callback
never re-enters a playing state. -/
theorem stop_not_suppressing (st : CtrlState) (i : Nat) (h : Reachable st)
    (hp : st.isPlaying = true) (hc : st.current = some i) :
    (step st .stop).isPlaying = false ∧
    endedEnabled (step st .stop) i = true ∧
    (step (step st .stop) (.ended i)).isPlaying = false ∧
    (step (step st .stop) (.ended i)).current = none := by
  obtain ⟨j, s, hcj, hs, hstop, hend⟩ := reachable_current_fresh st h hp
  have hij : j = i := Option.some.inj (hcj.symm.trans hc)
  subst hij
  have hstep : step st .stop =
      { st with sessions := markStopped st.sessions j, isPlaying := false } := by
    simp [step, hp, stopCurrent, hc]
  have h2 : endedEnabled (step st .stop) j = true := by
    rw [hstep]
    show (match (markStopped st.sessions j).get? j with
      | some s => !s.ended
      | none => false) = true
    rw [markStopped_get?_eq, hs, Option.map_some']
    show (!s.ended) = true
    rw [hend]
    rfl
  have key : ∀ s1 : CtrlState, endedEnabled s1 j = true →
      step s1 (.ended j) = ⟨false, none, markEnded s1.sessions j⟩ := by
    intro s1 hg
    simp [step, hg]
  refine ⟨by rw [hstep], h2, ?_, ?_⟩
  · rw [key _ h2]
  · rw [key _ h2]

/-- Witness for the C7 amended theorem at the state after one play. -/
theorem stop_not_suppressing_witness :
    (step (step initState (.play 0)) .stop).isPlaying = false ∧
    endedEnabled (step (step initState (.play 0)) .stop) 0 = true ∧
    (step (step (step initState (.play 0)) .stop) (.ended 0)).isPlaying = false ∧
    (step (step (step initState (.play 0)) .stop) (.ended 0)).current = none :=
  stop_not_suppressing (step initState (.play 0)) 0
    (Reachable.next initState (.play 0) Reachable.init) rfl rfl

/-- Every live source is the referenced one of a playing controller. -/
def LiveInv (st : CtrlState) : Prop :=
  ∀ j s, st.sessions.get? j = some s → s.live = true →
    st.isPlaying = true ∧ st.current = some j

/-- Stopping the referenced source of a playing controller leaves no
live source. -/
lemma liveInv_after_stop (st : CtrlState) (hinv : LiveInv st) :
    LiveInv { st with sessions := stopCurrent st, isPlaying := false } := by
  intro j s hj hl
  exfalso
  cases hcase : st.current with
  | none =>
      have hj2 : st.sessions.get? j = some s := by
        simpa [stopCurrent, hcase] using hj
      obtain ⟨-, hc2⟩ := hinv j s hj2 hl
      rw [hcase] at hc2
      cases hc2
  | some i =>
      have hj2 : (markStopped st.sessions i).get? j = some s := by
        simpa [stopCurrent, hcase] using hj
      by_cases hji : i = j
      · subst hji
        rw [markStopped_get?_eq] at hj2
        cases hsi : st.sessions.get? i with
        | none => rw [hsi] at hj2; cases hj2
        | some t =>
            rw [hsi, Option.map_some'] at hj2
            have hst : s = { t with stopped := true } := (Option.some.inj hj2).symm
            rw [hst] at hl
            simp [Session.live] at hl
      · rw [markStopped_get?_ne _ _ _ hji] at hj2
        obtain ⟨-, hc2⟩ := hinv j s hj2 hl
        rw [hcase] at hc2
        exact hji (Option.some.inj hc2)

/-- In the synchronous-callback model, every reachable state satisfies
the live-source invariant. -/
lemma reachableSync_liveInv : ∀ st, ReachableSync st → LiveInv st := by
  intro st h
  induction h with
  | init => intro j s hj hl; simp [initState] at hj
  | next st e hst hcur ih =>
      cases e with
      | play b =>
          by_cases hp : st.isPlaying = true
          · have hstep : step st (.play b) =
                { st with sessions := stopCurrent st, isPlaying := false } := by
              simp [step, hp]
            rw [hstep]
            exact liveInv_after_stop st ih
          · have hstep : step st (.play b) =
                ⟨true, some st.sessions.length, st.sessions ++ [⟨b, false, false⟩]⟩ := by
              simp [step, hp]
            rw [hstep]
            intro j s hj hl
            by_cases hj2 : j < st.sessions.length
            · rw [List.get?_append hj2] at hj
              obtain ⟨hp2, -⟩ := ih j s hj hl
              exact absurd hp2 hp
            · have hlt : j < st.sessions.length + 1 := by
                obtain ⟨h1, -⟩ := List.get?_eq_some.mp hj
                simpa using h1
              have hj3 : j = st.sessions.length := by omega
              subst hj3
              exact ⟨rfl, rfl⟩
      | stop =>
          by_cases hp : st.isPlaying = true
          · have hstep : step st .stop =
                { st with sessions := stopCurrent st, isPlaying := false } := by
              simp [step, hp]
            rw [hstep]
            exact liveInv_after_stop st ih
          · have hstep : step st .stop = st := by simp [step, hp]
            rw [hstep]
            exact ih
      | ended i =>
          by_cases hg : endedEnabled st i = true
          · have hci : st.current = some i := hcur i rfl
            have hstep : step st (.ended i) =
                ⟨false, none, markEnded st.sessions i⟩ := by
              simp [step, hg]
            rw [hstep]
            intro j s hj hl
            exfalso
            by_cases hji : i = j
            · subst hji
              rw [markEnded_get?_eq] at hj
              cases hsi : st.sessions.get? i with
              | none => rw [hsi] at hj; cases hj
              | some t =>
                  rw [hsi, Option.map_some'] at hj
                  have hst2 : s = { t with ended := true } := (Option.some.inj hj).symm
                  rw [hst2] at hl
                  simp [Session.live] at hl
            · rw [markEnded_get?_ne _ _ _ hji] at hj
              obtain ⟨-, hc2⟩ := ih j s hj hl
              rw [hci] at hc2
              exact hji (Option.some.inj hc2)
          · have hstep : step st (.ended i) = st := by simp [step, hg]
            rw [hstep]
            exact ih
      | playFail b =>
          by_cases hp : st.isPlaying = true
          · have hstep : step st (.playFail b) =
                { st with sessions := stopCurrent st, isPlaying := false } := by
              simp [step, hp]
            rw [hstep]
            exact liveInv_after_stop st ih
          · have hstep : step st (.playFail b) = st := by simp [step, hp]
            rw [hstep]
            exact ih

lemma filter_live_le_one : ∀ ss : List Session,
    (∀ j k s t, ss.get? j = some s → ss.get? k = some t →
      s.live = true → t.live = true → j = k) →
    (ss.filter Session.live).length ≤ 1
  | [], _ => by simp
  | s :: ss, h => by
      by_cases hl : s.live = true
      · have hnone : ∀ t ∈ ss, ¬t.live = true := by
          intro t ht hlt
          obtain ⟨k, hk⟩ := List.get?_of_mem ht
          have hjk := h 0 (k + 1) s t rfl (by simpa using hk) hl hlt
          omega
        have hfil : ss.filter Session.live = [] := List.filter_eq_nil.mpr hnone
        simp [List.filter_cons, hl, hfil]
      · have h2 : ∀ j k s1 t1, ss.get? j = some s1 → ss.get? k = some t1 →
            s1.live = true → t1.live = true → j = k := by
          intro j k s1 t1 hj hk hs1 ht1
          have hjk := h (j + 1) (k + 1) s1 t1 (by simpa using hj) (by simpa using hk) hs1 ht1
          omega
        have hle := filter_live_le_one ss h2
        simpa [List.filter_cons, hl] using hle

lemma liveCount_le_one_of_inv (st : CtrlState) (hinv : LiveInv st) :
    liveCount st ≤ 1 := by
  apply filter_live_le_one
  intro j k s t hj hk hs ht
  obtain ⟨-, hcj⟩ := hinv j s hj hs
  obtain ⟨-, hck⟩ := hinv k t hk ht
  exact Option.some.inj (hcj.symm.trans hck)

/-- C6 counterexample: from the idle initial state, play(0) then play(1)
without an intervening stop leaves zero live sources, and no source was
ever bound to buffer 1 — the second play acts as a stop, it does not
bind the new buffer. -/
theorem play_play_cex :
    liveCount (step (step initState (.play 0)) (.play 1)) = 0 ∧
    ((step (step initState (.play 0)) (.play 1)).sessions.all
      (fun s => s.buffer != 1)) = true := by
  decide

/-- C6 (amended): from any idle reachable state of the synchronous
model, play(A) starts a live source bound to A, and a second play(B)
without an intervening stop stops A's source and starts none: the play
control is a toggle, so afterwards the flag is false, A's source is
recorded stopped, no source for B was created, and no source is live;
moreover at most one source is live in any such reachable state. -/
theorem play_play_toggle (st : CtrlState) (A B : Nat) (h : ReachableSync st)
    (hidle : st.isPlaying = false) :
    (step st (.play A)).isPlaying = true ∧
    (step st (.play A)).sessions.get? st.sessions.length = some ⟨A, false, false⟩ ∧
    (step (step st (.play A)) (.play B)).isPlaying = false ∧
    (step (step st (.play A)) (.play B)).sessions.get? st.sessions.length =
      some ⟨A, true, false⟩ ∧
    (step (step st (.play A)) (.play B)).sessions.length = st.sessions.length + 1 ∧
    liveCount (step (step st (.play A)) (.play B)) = 0 ∧
    liveCount st ≤ 1 := by
  have hinv := reachableSync_liveInv st h
  have hp0 : ¬st.isPlaying = true := by rw [hidle]; exact fun hc => Bool.noConfusion hc
  have hs1 : step st (.play A) =
      ⟨true, some st.sessions.length, st.sessions ++ [⟨A, false, false⟩]⟩ := by
    simp [step, hp0]
  have hs2 : step (step st (.play A)) (.play B) =
      ⟨false, some st.sessions.length,
        markStopped (st.sessions ++ [⟨A, false, false⟩]) st.sessions.length⟩ := by
    rw [hs1]
    simp [step, stopCurrent]
  refine ⟨by rw [hs1], ?_, by rw [hs2], ?_, ?_, ?_, ?_⟩
  · rw [hs1]
    exact List.get?_concat_length _ _
  · rw [hs2]
    show (markStopped (st.sessions ++ [⟨A, false, false⟩]) st.sessions.length).get?
      st.sessions.length = some ⟨A, true, false⟩
    rw [markStopped_get?_eq, List.get?_concat_length, Option.map_some']
  · rw [hs2]
    show (markStopped (st.sessions ++ [⟨A, false, false⟩]) st.sessions.length).length =
      st.sessions.length + 1
    rw [markStopped_length]
    simp
  · rw [hs2]
    show ((markStopped (st.sessions ++ [⟨A, false, false⟩]) st.sessions.length).filter
      Session.live).length = 0
    rw [List.length_eq_zero]
    apply List.filter_eq_nil.mpr
    intro t ht hlive
    obtain ⟨k, hk⟩ := List.get?_of_mem ht
    by_cases hkn : k = st.sessions.length
    · subst hkn
      rw [markStopped_get?_eq, List.get?_concat_length, Option.map_some'] at hk
      have ht2 : t = ⟨A, true, false⟩ := (Option.some.inj hk).symm
      rw [ht2] at hlive
      simp [Session.live] at hlive
    · rw [markStopped_get?_ne _ _ _ (fun hc => hkn hc.symm)] at hk
      have hklt : k < st.sessions.length + 1 := by
        obtain ⟨h1, -⟩ := List.get?_eq_some.mp hk
        simpa using h1
      have hklt2 : k < st.sessions.length := by omega
      rw [List.get?_append hklt2] at hk
      obtain ⟨hp2, -⟩ := hinv k t hk hlive
      exact hp0 hp2
  · exact liveCount_le_one_of_inv st hinv

/-- Witness for the C6 amended theorem at the initial state with
buffers 0 and 1. -/
theorem play_play_toggle_witness :
    (step initState (.play 0)).isPlaying = true ∧
    (step initState (.play 0)).sessions.get? initState.sessions.length =
      some ⟨0, false, false⟩ ∧
    (step (step initState (.play 0)) (.play 1)).isPlaying = false ∧
    (step (step initState (.play 0)) (.play 1)).sessions.get?
      initState.sessions.length = some ⟨0, true, false⟩ ∧
    (step (step initState (.play 0)) (.play 1)).sessions.length =
      initState.sessions.length + 1 ∧
    liveCount (step (step initState (.play 0)) (.play 1)) = 0 ∧
    liveCount initState ≤ 1 :=
  play_play_toggle initState 0 1 ReachableSync.init rfl

/-! ## Speech-generation handler (handleGenerateSpeech in src/App.tsx)

The handler guards on an empty summary, sets the loading flags, clears
the error, awaits generateSpeech, stores the audio on success or sets
the error message on failure, and in its finally block clears the
loading flags.  The awaited remote call is an external collaborator, so
the embedding takes its outcome as a parameter and returns the state
after the whole handler has run. -/

/-- The App component state fields the handler touches. -/
structure AppState where
  transcription : String
  summary : String
  summaryAudio : Option String
  error : Option String
  isLoading : Bool
  loadingStep : String
  deriving DecidableEq

/-- handleGenerateSpeech from src/App.tsx, parameterized by the outcome
of the awaited generateSpeech call. -/
def handleGenerateSpeech (st : AppState) (result : Except String String) : AppState :=
  if st.summary = "" then
    { st with error := some "No summary available to generate speech." }
  else
    match result with
    | .ok audio =>
        { st with summaryAudio := some audio, error := none,
                  isLoading := false, loadingStep := "" }
    | .error msg =>
        { st with error := some msg, isLoading := false, loadingStep := "" }

/-- C8: a failed speech-generation attempt leaves every previously
established result untouched — transcription, summary and any earlier
summary audio keep their values, only the error field is set (and the
attempt's own loading flags are cleared); a decode or playback failure
inside playBuffer happens before any controller field is assigned, so
it leaves the playback state unchanged as well. -/
theorem generateSpeech_failure_preserves (st : AppState) (msg : String) :
    (handleGenerateSpeech st (.error msg)).transcription = st.transcription ∧
    (handleGenerateSpeech st (.error msg)).summary = st.summary ∧
    (handleGenerateSpeech st (.error msg)).summaryAudio = st.summaryAudio ∧
    (handleGenerateSpeech st (.error msg)).error.isSome = true ∧
    (∀ (ctrl : CtrlState) (b : Nat), ctrl.isPlaying = false →
      step ctrl (.playFail b) = ctrl) := by
  by_cases hs : st.summary = ""
  · refine ⟨?_, ?_, ?_, ?_, ?_⟩ <;>
      first
        | simp [handleGenerateSpeech, hs]
        | (intro ctrl b hc; simp [step, hc])
  · refine ⟨?_, ?_, ?_, ?_, ?_⟩ <;>
      first
        | simp [handleGenerateSpeech, hs]
        | (intro ctrl b hc; simp [step, hc])

/-- Witness for the C8 theorem at a concrete state holding results of
earlier successful steps. -/
theorem generateSpeech_failure_witness :
    (handleGenerateSpeech ⟨"t", "s", some "a", none, true, "Generating speech..."⟩
      (.error "boom")).transcription = "t" ∧
    (handleGenerateSpeech ⟨"t", "s", some "a", none, true, "Generating speech..."⟩
      (.error "boom")).summary = "s" ∧
    (handleGenerateSpeech ⟨"t", "s", some "a", none, true, "Generating speech..."⟩
      (.error "boom")).summaryAudio = some "a" ∧
    (handleGenerateSpeech ⟨"t", "s", some "a", none, true, "Generating speech..."⟩
      (.error "boom")).error.isSome = true ∧
    step initState (.playFail 0) = initState :=
  have h := generateSpeech_failure_preserves
    ⟨"t", "s", some "a", none, true, "Generating speech..."⟩ "boom"
  ⟨h.1, h.2.1, h.2.2.1, h.2.2.2.1, h.2.2.2.2 initState 0 rfl⟩

end SchoolAI
